import Mathlib

/-!
Verification development for cbuild.py, a CMake build-orchestration script.

The embedding models the descriptor scanner of the script (Project.get_executable_names,
Project.get_subprojects, get_project_name), the Project constructor (flattened
executable paths, executable selection), the argument-quoting helpers
(escape_quotes, get_quoted_string) and the orchestration flow of main()
(build-config hashing, configure/build/copy/run sequencing).

Files are lists of physical lines; a line is a list of characters without its
trailing newline (the trailing newline never changes any of the modelled regex
matches: the dot of the patterns cannot consume it and the trailing whitespace
parts of the patterns are irrelevant to the captured groups).

Effects are modelled explicitly: file reads go through a finite file-system map,
subprocess invocations and persisted-state writes become events in a trace, and
fatal exits versus uncaught Python exceptions are distinguished in an error type.
Recursion through included descriptor files is fuel-bounded, mirroring the finite Python
recursion depth.
-/

set_option linter.unusedVariables false

namespace Cbuild

/-- the Python regex class \s over the ASCII characters that can occur here. -/
def pyIsSpace (c : Char) : Bool :=
  c = ' ' || c = '\t' || c = '\n' || c = '\r' || c = '\x0b' || c = '\x0c'

def dropSpaces (l : List Char) : List Char := l.dropWhile pyIsSpace

/-- Match a literal character sequence at the start, returning the remainder. -/
def stripLit : List Char → List Char → Option (List Char)
  | [], r => some r
  | _ :: _, [] => none
  | c :: cs, d :: ds => if d = c then stripLit cs ds else none

/-- Index of the last closing parenthesis of a line, if any. -/
def lastCloseIdx : List Char → Option Nat
  | [] => none
  | c :: cs =>
    match lastCloseIdx cs with
    | some i => some (i + 1)
    | none => if c = ')' then some 0 else none

def wsRun (l : List Char) : Nat := (l.takeWhile pyIsSpace).length

/-- Capture group of the regex fragment \s*(.+)\s*\) under Python backtracking:
the greedy dot-plus extends to the last closing parenthesis of the line, and the
leading \s* yields characters back when otherwise fewer than one would remain
for the group. -/
def captureParen (rest : List Char) : Option (List Char) :=
  match lastCloseIdx rest with
  | none => none
  | some r =>
    if r = 0 then none
    else
      let j := min (wsRun rest) (r - 1)
      some ((rest.drop j).take (r - j))

/-- Shared shape of the three line patterns: optional leading whitespace, a
literal command word, optional whitespace, an opening parenthesis. Returns the
text after the parenthesis. -/
def matchCmd (lit : List Char) (line : List Char) : Option (List Char) :=
  match stripLit lit (dropSpaces line) with
  | none => none
  | some r1 =>
    match stripLit ['('] (dropSpaces r1) with
    | none => none
    | some r2 => some r2

/-- The captured name of a project declaration line, pattern
^\s*project\s*\(\s*(.+)\s*\)\s* under re.match. -/
def projectLine (line : List Char) : Option String :=
  (matchCmd "project".data line).bind (fun r => (captureParen r).map String.mk)

/-- The captured directory of a subdirectory-inclusion line, pattern
\s*add_subdirectory\s*\(\s*(.+)\s*\)\s* under re.match. -/
def subdirLine (line : List Char) : Option String :=
  (matchCmd "add_subdirectory".data line).bind (fun r => (captureParen r).map String.mk)

/-- The captured first token of an executable declaration line, pattern
\s*add_executable\s*\(\s*(\S+)\s+(.+)\s*\)\s* under re.match: the first maximal
run of non-space characters after the parenthesis, provided it is followed by a
whitespace character and the last closing parenthesis of the line lies at least two
characters further (so that \s+ and the non-empty second group both fit). -/
def execLine (line : List Char) : Option String :=
  match matchCmd "add_executable".data line with
  | none => none
  | some r2 =>
    let r3 := dropSpaces r2
    let t := r3.takeWhile (fun c => !(pyIsSpace c))
    if t = [] then none
    else
      let after := r3.drop t.length
      match lastCloseIdx after with
      | some r => if 2 ≤ r then some (String.mk t) else none
      | none => none

/-- Python line.startswith of the comment marker. -/
def isCommentLine (line : List Char) : Bool :=
  match line with
  | c :: _ => c = '#'
  | [] => false

/-- The file system: descriptor path to its list of lines. -/
abbrev FS := List (String × List (List Char))

def fsRead : FS → String → Option (List (List Char))
  | [], _ => none
  | (p, ls) :: rest, q => if p = q then some ls else fsRead rest q

/-- Abnormal outcomes. exitCode models quit(n)/an explicit error return of main;
keyError models an uncaught dictionary lookup failure; missingFile an uncaught
IOError from open; noProjectName the exception raised by get_project_name;
fuel is the modelling artifact bounding recursion depth. -/
inductive Err where
  | fuel
  | missingFile (path : String)
  | noProjectName (path : String)
  | exitCode (code : Nat)
  | keyError (key : String)
deriving DecidableEq

inductive Platform where
  | windows
  | linux
  | other
deriving DecidableEq

def isSep (plat : Platform) (c : Char) : Bool :=
  match plat with
  | Platform.windows => c = '\\' || c = '/'
  | _ => c = '/'

def sepStr (plat : Platform) : String :=
  match plat with
  | Platform.windows => "\\"
  | _ => "/"

def strStartsWithChar (s : String) (c : Char) : Bool :=
  match s.data with
  | d :: _ => d = c
  | [] => false

def strEndsWithChar (s : String) (c : Char) : Bool :=
  match s.data.getLast? with
  | some d => d = c
  | none => false

/-- os.path.join restricted to the two-argument form used by the script: POSIX
semantics for linux and other platforms, ntpath semantics for windows (drive
letters do not occur in the paths the script builds and are outside the model). -/
def pjoin (plat : Platform) (a b : String) : String :=
  match plat with
  | Platform.windows =>
    if strStartsWithChar b '\\' || strStartsWithChar b '/' then b
    else if a = "" then b
    else if strEndsWithChar a '\\' || strEndsWithChar a '/' then a ++ b
    else a ++ "\\" ++ b
  | _ =>
    if strStartsWithChar b '/' then b
    else if a = "" || strEndsWithChar a '/' then a ++ b
    else a ++ "/" ++ b

/-- os.path.dirname: everything up to the last separator, with trailing
separators stripped unless the head consists only of separators. -/
def dirname (plat : Platform) (p : String) : String :=
  let r := p.data.reverse
  let afterName := r.dropWhile (fun c => !(isSep plat c))
  match afterName with
  | [] => ""
  | _ :: _ =>
    let stripped := afterName.dropWhile (isSep plat)
    if stripped = [] then String.mk afterName.reverse else String.mk stripped.reverse

/-- Split a character list at every character satisfying p (Python str.split
with an explicit separator: empty pieces are kept). -/
def splitOnPred (p : Char → Bool) : List Char → List (List Char)
  | [] => [[]]
  | c :: cs =>
    if p c then [] :: splitOnPred p cs
    else
      match splitOnPred p cs with
      | t :: ts => (c :: t) :: ts
      | [] => [[c]]

def joinSep (sep : String) : List String → String
  | [] => ""
  | [s] => s
  | s :: t :: rest => s ++ sep ++ joinSep sep (t :: rest)

/-- os.path.relpath against the current directory, for the relative
"."-prefixed paths this script constructs: empty and single-dot components
drop out. Absolute paths and parent references do not occur in the modelled
usage. -/
def relpath (plat : Platform) (p : String) : String :=
  let comps := (splitOnPred (isSep plat) p.data).filter (fun c => !(c = []) && !(c = ['.']))
  if comps = [] then "." else joinSep (sepStr plat) (comps.map String.mk)

/-- os.path.basename: the part after the last separator. -/
def basename (plat : Platform) (p : String) : String :=
  String.mk ((splitOnPred (isSep plat) p.data).getLastD [])

def CMAKE : String := "CMakeLists.txt"

/-- First project declaration of a file, in line order. -/
def firstProjectName : List (List Char) → Option String
  | [] => none
  | l :: ls =>
    match projectLine l with
    | some nm => some nm
    | none => firstProjectName ls

/-- get_project_name: re-read the file and search for the first project
declaration with a multiline-anchored pattern; the first line containing a
complete declaration wins (declarations split across physical lines do not
occur in the modelled usage of this descriptor grammar). A missing declaration
raises an exception. -/
def get_project_name (fs : FS) (path : String) : Except Err String :=
  match fsRead fs path with
  | none => Except.error (Err.missingFile path)
  | some ls =>
    match firstProjectName ls with
    | some nm => Except.ok nm
    | none => Except.error (Err.noProjectName path)

/-- The early-return test of Project.get_executable_names: a non-comment line
declaring a project whose captured name differs from the owner name of the scan. -/
def stopsScan (owner : String) (line : List Char) : Bool :=
  match projectLine line with
  | some nm => nm != owner
  | none => false

/-- The line loop of Project.get_executable_names over the lines of one file.
recur performs the recursive scan of the descriptor of an included subdirectory
(in the script, the same method applied to the joined path). Comment lines are
skipped; a foreign project declaration returns the executables collected so
far; a subdirectory inclusion concatenates the names of the recursive scan before
continuing; an executable declaration contributes its first token, with the
same-as-project placeholder resolved by re-reading the own project
name. -/
def scanFileLines (plat : Platform) (fs : FS) (owner : String)
    (recur : String → Except Err (List String)) (path : String) :
    List (List Char) → Except Err (List String)
  | [] => Except.ok []
  | line :: rest =>
    if isCommentLine line then scanFileLines plat fs owner recur path rest
    else if stopsScan owner line then Except.ok []
    else
      match subdirLine line with
      | some sub =>
        match recur (pjoin plat (pjoin plat (dirname plat path) sub) CMAKE) with
        | Except.error e => Except.error e
        | Except.ok es =>
          match scanFileLines plat fs owner recur path rest with
          | Except.error e => Except.error e
          | Except.ok es' => Except.ok (es ++ es')
      | none =>
        match execLine line with
        | some t =>
          match (if t = "$\x7bPROJECT_NAME\x7d" then get_project_name fs path else Except.ok t) with
          | Except.error e => Except.error e
          | Except.ok nm =>
            match scanFileLines plat fs owner recur path rest with
            | Except.error e => Except.error e
            | Except.ok es => Except.ok (nm :: es)
        | none => scanFileLines plat fs owner recur path rest

/-- Project.get_executable_names: read the file and run the line loop; the
recursive call for included subdirectories runs on one unit less fuel. -/
def get_executable_names (plat : Platform) (fs : FS) (owner : String) :
    Nat → String → Except Err (List String)
  | 0, _ => Except.error Err.fuel
  | fuel + 1, path =>
    match fsRead fs path with
    | none => Except.error (Err.missingFile path)
    | some ls =>
      scanFileLines plat fs owner (fun p => get_executable_names plat fs owner fuel p) path ls

/-- The constructed Project object: declared name, directory, flattened
executables, sub-project dictionary, OS-specific build and output directories,
the flattened name-to-path dictionary, the selected executable and its run
path. -/
inductive Project where
  | mk (name dir : String) (executables : List String)
      (subprojects : List (String × Project))
      (build_dir executables_dir : String)
      (executables_paths : List (String × String))
      (executable run_path : String)

def Project.name : Project → String
  | Project.mk n _ _ _ _ _ _ _ _ => n

def Project.dir : Project → String
  | Project.mk _ d _ _ _ _ _ _ _ => d

def Project.executables : Project → List String
  | Project.mk _ _ es _ _ _ _ _ _ => es

def Project.subprojects : Project → List (String × Project)
  | Project.mk _ _ _ sp _ _ _ _ _ => sp

def Project.build_dir : Project → String
  | Project.mk _ _ _ _ bd _ _ _ _ => bd

def Project.executables_dir : Project → String
  | Project.mk _ _ _ _ _ ed _ _ _ => ed

def Project.executables_paths : Project → List (String × String)
  | Project.mk _ _ _ _ _ _ ep _ _ => ep

def Project.executable : Project → String
  | Project.mk _ _ _ _ _ _ _ e _ => e

def Project.run_path : Project → String
  | Project.mk _ _ _ _ _ _ _ _ rp => rp

/-- Python dict assignment d[k] = v: an existing key keeps its position and is
overwritten, a new key is appended. -/
def dictInsert {α : Type} (k : String) (v : α) : List (String × α) → List (String × α)
  | [] => [(k, v)]
  | (k', v') :: rest => if k' = k then (k, v) :: rest else (k', v') :: dictInsert k v rest

/-- Python dict lookup d[k] as an Option. -/
def dictGet {α : Type} (k : String) : List (String × α) → Option α
  | [] => none
  | (k', v) :: rest => if k' = k then some v else dictGet k rest

/-- Python dict update: apply the entries of the second dict to the first in order. -/
def dictUpdate {α : Type} (d d' : List (String × α)) : List (String × α) :=
  d'.foldl (fun acc kv => dictInsert kv.1 kv.2 acc) d

/-- The dict comprehension mapping each executable name to a path inside the
given output directory. -/
def execPathDict (plat : Platform) (dir : String) (execs : List String) :
    List (String × String) :=
  execs.foldl (fun acc e => dictInsert e (pjoin plat dir e) acc) []

/-- Lines 37-41 of the constructor: own executables mapped into the output directory of the project, then the executables of each sub-project mapped into the output directory of that sub-project, merged with dict update (last writer wins). -/
def flatten_exec_paths (plat : Platform) (executables_dir : String)
    (executables : List String) (subs : List Project) : List (String × String) :=
  subs.foldl (fun acc p => dictUpdate acc (execPathDict plat p.executables_dir p.executables))
    (execPathDict plat executables_dir executables)

/-- Lines 44-45 of the constructor: the executable list extended with every
executables of every sub-project. -/
def flatten_execs (executables : List String) (subs : List Project) : List String :=
  subs.foldl (fun acc p => acc ++ p.executables) executables

/-- Lines 47-54 of the constructor: no requested executable, or the literal
default marker, selects the project name with no membership check; an explicit
request must be in the flattened executable list, otherwise quit(1). -/
def select_executable (executable? : Option String) (name : String)
    (executables : List String) : Except Err String :=
  match executable? with
  | none => Except.ok name
  | some e =>
    if e = "default" then Except.ok name
    else if e ∈ executables then Except.ok e
    else Except.error (Err.exitCode 1)

/-- set_exec_ext: on Windows every path value gains the .exe suffix. -/
def set_exec_ext (plat : Platform) (paths : List (String × String)) :
    List (String × String) :=
  match plat with
  | Platform.windows => paths.map (fun kv => (kv.1, kv.2 ++ ".exe"))
  | _ => paths

/-- The tail of the constructor: select the executable, then look its run path
up in the flattened dictionary; a failed lookup is an uncaught KeyError. -/
def resolve_executable (executable? : Option String) (name : String)
    (executables : List String) (paths : List (String × String)) :
    Except Err (String × String) :=
  match select_executable executable? name executables with
  | Except.error e => Except.error e
  | Except.ok sel =>
    match dictGet sel paths with
    | some rp => Except.ok (sel, rp)
    | none => Except.error (Err.keyError sel)

/-- set_os_specific: build and executables directories per platform; root? is
the directory of the root project when this project is a sub-project. An
unsupported platform is a fatal quit(1). -/
def os_specific (plat : Platform) (dir : String) (root? : Option String) :
    Except Err (String × String) :=
  match plat with
  | Platform.windows =>
    match root? with
    | some rd =>
      let bd := pjoin Platform.windows rd "build\\windows\\"
      Except.ok (bd, pjoin Platform.windows (pjoin Platform.windows bd "Debug")
        (if dir ≠ "." then relpath Platform.windows dir else ""))
    | none =>
      let bd := pjoin Platform.windows dir "build\\windows\\"
      Except.ok (bd, pjoin Platform.windows bd "Debug\\")
  | Platform.linux =>
    match root? with
    | some rd =>
      let bd := pjoin Platform.linux rd "build/linux/"
      Except.ok (bd, pjoin Platform.linux bd
        (if dir ≠ "." then relpath Platform.linux dir else ""))
    | none =>
      let bd := pjoin Platform.linux dir "build/linux/"
      Except.ok (bd, bd)
  | Platform.other => Except.error (Err.exitCode 1)

/-- One iteration of the line loop of Project.get_subprojects: a foreign
project declaration builds a sub-project rooted at the directory containing
the scanned file and assigns it into the dictionary; a subdirectory inclusion
merges the recursively scanned dictionary in with dict update. Both patterns are
tested on every line; comment lines are not skipped and nothing returns
early. -/
def subprojStep (mk : String → String → Except Err Project)
    (recurFile : String → Except Err (List (String × Project)))
    (selfName : String) (plat : Platform) (path : String)
    (acc : List (String × Project)) (line : List Char) :
    Except Err (List (String × Project)) :=
  match (match projectLine line with
         | some pname =>
           if pname = selfName then Except.ok acc
           else
             match mk pname (dirname plat path) with
             | Except.error e => Except.error e
             | Except.ok p => Except.ok (dictInsert pname p acc)
         | none => Except.ok acc : Except Err (List (String × Project))) with
  | Except.error e => Except.error e
  | Except.ok acc1 =>
    match subdirLine line with
    | some sub =>
      match recurFile (pjoin plat (pjoin plat (dirname plat path) sub) CMAKE) with
      | Except.error e => Except.error e
      | Except.ok d => Except.ok (dictUpdate acc1 d)
    | none => Except.ok acc1

/-- The line loop of Project.get_subprojects over the lines of one file, threading
the mutated dictionary through every line of the file. -/
def subprojLines (mk : String → String → Except Err Project)
    (recurFile : String → Except Err (List (String × Project)))
    (selfName : String) (plat : Platform) (path : String) :
    List (String × Project) → List (List Char) → Except Err (List (String × Project))
  | acc, [] => Except.ok acc
  | acc, line :: rest =>
    match subprojStep mk recurFile selfName plat path acc line with
    | Except.error e => Except.error e
    | Except.ok acc2 => subprojLines mk recurFile selfName plat path acc2 rest

/-- Project.get_subprojects: read the file and run the line loop starting from
an empty dictionary; the recursive call for included subdirectories runs on
one unit less fuel. -/
def get_subprojects (plat : Platform) (fs : FS) (selfName : String)
    (mk : String → String → Except Err Project) :
    Nat → String → Except Err (List (String × Project))
  | 0, _ => Except.error Err.fuel
  | fuel + 1, path =>
    match fsRead fs path with
    | none => Except.error (Err.missingFile path)
    | some ls =>
      subprojLines mk (fun p => get_subprojects plat fs selfName mk fuel p)
        selfName plat path [] ls

/-- Project.__init__: resolve the name (from the file when not given), scan the
executables, discover sub-projects (each built with this constructor at one
unit less fuel, rooted at the directory of the root project, or at the directory of this
directory when this is the root), compute the OS-specific directories, build
the flattened path dictionary and executable list, select the executable,
apply the OS executable extension, and look up the run path (an uncaught
KeyError when the selected executable has no path). -/
def mkProject (plat : Platform) (fs : FS) :
    Nat → Option String → Option String → String → Option String → Except Err Project
  | 0, _, _, _, _ => Except.error Err.fuel
  | fuel + 1, name?, executable?, dir, root? =>
    let cmake_path := pjoin plat dir CMAKE
    match (match name? with
           | some n => Except.ok n
           | none => get_project_name fs cmake_path : Except Err String) with
    | Except.error e => Except.error e
    | Except.ok name =>
      match get_executable_names plat fs name (fuel + 1) cmake_path with
      | Except.error e => Except.error e
      | Except.ok executables =>
        match get_subprojects plat fs name
            (fun pname pdir => mkProject plat fs fuel (some pname) none pdir (some (root?.getD dir)))
            (fuel + 1) cmake_path with
        | Except.error e => Except.error e
        | Except.ok subprojects =>
          match os_specific plat dir root? with
          | Except.error e => Except.error e
          | Except.ok ds =>
            let exec_paths := flatten_exec_paths plat ds.2 executables (subprojects.map Prod.snd)
            let executablesAll := flatten_execs executables (subprojects.map Prod.snd)
            let exec_paths2 := set_exec_ext plat exec_paths
            match resolve_executable executable? name executablesAll exec_paths2 with
            | Except.error e => Except.error e
            | Except.ok sel =>
              Except.ok (Project.mk name dir executablesAll subprojects ds.1 ds.2
                exec_paths2 sel.1 sel.2)

/-- Observable external effects of one run: build-config file creation and
hash writes, build-directory removal, and the cmake configure, cmake build,
artifact copy and executable run subprocess invocations. Command-line detail
beyond the directories and paths shown (cmake options, sourced-environment
wrapper, pass-through arguments) is not carried in the event. -/
inductive Event where
  | createConf
  | writeConf (hash : String)
  | deleteBuildDir (dir : String)
  | configure (buildDir : String)
  | build (buildDir : String)
  | copy (src dst : String)
  | run (path : String)
deriving DecidableEq

/-- Lines 386-390 of main: when the build-config file does not exist it is
created and immediately filled with the current descriptor hash. The input is
the persisted state (none: file absent; some none: file present without the
hash field; some (some h): field h); the output is the field contents after
this step plus the write events. -/
def ensure_build_conf (conf : Option (Option String)) (cur : String) :
    Option String × List Event :=
  match conf with
  | none => (some cur, [Event.createConf, Event.writeConf cur])
  | some s => (s, [])

/-- Lines 392-402 of main: with change detection enabled, a stored hash
differing from the current one marks the run modified and persists the new
hash; an equal stored hash leaves everything untouched; an absent hash field
persists the new hash. Returns (modified, new field contents, write events). -/
def detect_changes (ignore : Bool) (persisted : Option String) (cur : String) :
    Bool × Option String × List Event :=
  if ignore then (false, persisted, [])
  else
    match persisted with
    | some h =>
      if h ≠ cur then (true, some cur, [Event.writeConf cur])
      else (false, persisted, [])
    | none => (false, some cur, [Event.writeConf cur])

/-- The parsed command-line arguments of main. cmake_options and other_args
only alter subprocess command text that events do not carry. -/
structure Args where
  path : String
  executable : Option String
  force : Bool
  delete : Bool
  cmake_options : Option String
  projectFlag : Bool
  ignore : Bool
  source : String
  binary_dir : Option String
  other_args : List String

/-- Python truthiness of an optional string argument. -/
def truthyOptStr (o : Option String) : Bool :=
  match o with
  | some s => s != ""
  | none => false

/-- main(): the full orchestration sequence. World inputs besides the file
system: the persisted build-config state, the current descriptor hash (the
sha1 digest itself is opaque to the model), whether the cmake tool is
invocable, whether the cache marker file and the build directory exist, and
the exit codes the external build and run subprocesses would return. The
result is the process exit code with the trace of effects, or an uncaught
exception. -/
def mainModel (plat : Platform) (fs : FS) (fuel : Nat) (args : Args)
    (conf : Option (Option String)) (curHash : String)
    (cmakeInstalled : Bool) (cacheExists : Bool) (buildDirExists : Bool)
    (buildRC runRC : Nat) : Except Err (Nat × List Event) :=
  let cmake_path := pjoin plat args.path CMAKE
  match fsRead fs cmake_path with
  | none => Except.ok (1, [])
  | some _ =>
    if !cmakeInstalled then Except.ok (1, [])
    else
      match mkProject plat fs fuel none args.executable args.path none with
      | Except.error (Err.exitCode c) => Except.ok (c, [])
      | Except.error e => Except.error e
      | Except.ok project =>
        if args.projectFlag then Except.ok (0, [])
        else
          let st := ensure_build_conf conf curHash
          let det := detect_changes args.ignore st.1 curHash
          let ev01 := st.2 ++ det.2.2
          match get_project_name fs cmake_path with
          | Except.error e => Except.error e
          | Except.ok _projName =>
            let doDelete := buildDirExists && args.delete
            let evDel := if doDelete then [Event.deleteBuildDir project.build_dir] else []
            let cacheNow := cacheExists && !doDelete
            if args.source != "" && (plat = Platform.windows : Bool) then
              Except.ok (1, ev01 ++ evDel)
            else
              let evCfg := if !cacheNow || det.1 then [Event.configure project.build_dir] else []
              let tr0 := ev01 ++ evDel ++ evCfg ++ [Event.build project.build_dir]
              if buildRC ≠ 0 && !args.force then Except.ok (buildRC, tr0)
              else
                let evCopy :=
                  if buildRC = 0 && truthyOptStr args.binary_dir then
                    project.executables_paths.map (fun kv =>
                      Event.copy kv.2 (pjoin plat (args.binary_dir.getD "") (basename plat kv.2)))
                  else []
                let tr1 := tr0 ++ evCopy
                match args.executable with
                | none => Except.ok (0, tr1)
                | some e =>
                  if e = "" then Except.ok (0, tr1)
                  else if e = "default" then Except.ok (runRC, tr1 ++ [Event.run project.run_path])
                  else
                    match dictGet e project.executables_paths with
                    | some p => Except.ok (runRC, tr1 ++ [Event.run p])
                    | none => Except.error (Err.keyError e)

/-- The double-quote character. -/
def DQ : Char := Char.ofNat 34

/-- The single-quote character. -/
def SQ : Char := Char.ofNat 39

/-- re.sub of a double quote by backslash double-quote. -/
def sub_dquote : List Char → List Char
  | [] => []
  | c :: cs => if c = DQ then '\\' :: DQ :: sub_dquote cs else c :: sub_dquote cs

/-- re.sub of a single quote by backslash single-quote. -/
def sub_squote : List Char → List Char
  | [] => []
  | c :: cs => if c = SQ then '\\' :: SQ :: sub_squote cs else c :: sub_squote cs

/-- escape_quotes: both substitutions in the order of the script. -/
def escape_quotes (s : List Char) : List Char := sub_squote (sub_dquote s)

/-- Python str.split on a single space (empty pieces kept). -/
def splitSpace (l : List Char) : List (List Char) := splitOnPred (fun c => c = ' ') l

/-- Python separator.join for a single-space separator, at character level. -/
def joinSpace : List (List Char) → List Char
  | [] => []
  | [s] => s
  | s :: t :: rest => s ++ ' ' :: joinSpace (t :: rest)

def hasQuoteChar (l : List Char) : Bool := l.any (fun c => c = DQ || c = SQ)

/-- Wrapping in double quotes, the f-string of get_quoted_string. -/
def wrapDQ (l : List Char) : List Char := DQ :: l ++ [DQ]

/-- get_quoted_string on an argument list with the default all=False: the
arguments are joined with spaces, the joined string is escaped, split on
spaces again, and each piece containing a quote character is wrapped in
double quotes. -/
def get_quoted_string (strings : List (List Char)) : List Char :=
  let escaped_strings := escape_quotes (joinSpace strings)
  joinSpace ((splitSpace escaped_strings).map
    (fun item => if hasQuoteChar item then wrapDQ item else item))

/-- The per-argument quoting that the specification text describes: each
argument independently escaped and wrapped in double quotes when it contains
a quote character, otherwise passed through unchanged as one token. -/
def per_argument_quoted (strings : List (List Char)) : List Char :=
  joinSpace (strings.map
    (fun a => if hasQuoteChar a then wrapDQ (escape_quotes a) else a))

/-- A project tree with a nested sub-project: the root descriptor declares
Root with a placeholder executable and an included subdirectory; the included
descriptor declares Sub with a placeholder executable and a second executable
whose name collides with nothing here. -/
def fsNested : FS :=
  [ ("./CMakeLists.txt",
     [ "# root descriptor".data,
       "project(Root)".data,
       "add_executable($\x7bPROJECT_NAME\x7d main.c)".data,
       "add_subdirectory(sub)".data ]),
    ("./sub/CMakeLists.txt",
     [ "project(Sub)".data,
       "add_executable($\x7bPROJECT_NAME\x7d s.c)".data ]) ]

/-- A descriptor whose declared project name is not among its declared
executables. -/
def fsNameless : FS :=
  [ ("./CMakeLists.txt",
     [ "project(Root)".data,
       "add_executable(app main.c)".data ]) ]

/-- A descriptor declaring one executable named like its project. -/
def fsApp : FS :=
  [ ("./CMakeLists.txt",
     [ "project(App)".data,
       "add_executable(App main.c)".data ]) ]

/-- A concrete Project value standing in as a sub-project in witnesses. -/
def pSub : Project :=
  Project.mk "Sub" "./sub" ["Sub"] [] "./build/linux/" "./build/linux/sub"
    [("Sub", "./build/linux/sub/Sub")] "Sub" "./build/linux/sub/Sub"

/-- A concrete sub-project declaring an executable named app, colliding with
the one declared by the root. -/
def pSubApp : Project :=
  Project.mk "Sub" "./sub" ["app"] [] "./build/linux/" "./build/linux/sub"
    [("app", "./build/linux/sub/app")] "app" "./build/linux/sub/app"

/-- Arguments requesting a run of an executable name that is not declared. -/
def argsUnknownRun : Args :=
  { path := ".", executable := some "nope", force := false, delete := false,
    cmake_options := none, projectFlag := false, ignore := false, source := "",
    binary_dir := none, other_args := [] }

/-- Arguments for a plain build with no flags. -/
def argsPlain : Args :=
  { path := ".", executable := none, force := false, delete := false,
    cmake_options := none, projectFlag := false, ignore := false, source := "",
    binary_dir := none, other_args := [] }

/-- C1: for every descriptor file scanned for executable names with an owner
name, the scan collects executable declarations in file order and stops at the
first non-comment project-declaration line whose captured name differs from
the owner: no executable-declaration or subdirectory-inclusion line after that
point contributes to the returned sequence, and the names collected before
that point are returned (the scan of the lines before the foreign
declaration). -/
theorem c1_scan_stops_at_foreign_project (plat : Platform) (fs : FS)
    (owner : String) (recur : String → Except Err (List String)) (path : String)
    (pre post : List (List Char)) (fl : List Char) (nm : String)
    (hproj : projectLine fl = some nm) (hne : nm ≠ owner)
    (hnc : isCommentLine fl = false)
    (hpre : ∀ l ∈ pre, isCommentLine l = true ∨ ∀ m, projectLine l = some m → m = owner) :
    scanFileLines plat fs owner recur path (pre ++ fl :: post) =
      scanFileLines plat fs owner recur path pre := by
  induction pre with
  | nil =>
    simp only [List.nil_append]
    simp [scanFileLines, stopsScan, hproj, hnc, hne]
  | cons l pre' ih =>
    have hl := hpre l (by simp)
    have hpre' : ∀ x ∈ pre', isCommentLine x = true ∨ ∀ m, projectLine x = some m → m = owner :=
      fun x hx => hpre x (by simp [hx])
    simp only [List.cons_append]
    by_cases hcl : isCommentLine l = true
    · simp only [scanFileLines, hcl, if_true]
      exact ih hpre'
    · have hclf : isCommentLine l = false := by
        cases hb : isCommentLine l with
        | false => rfl
        | true => exact absurd hb hcl
      have hstop : stopsScan owner l = false := by
        rcases hl with hc | hp
        · exact absurd hc hcl
        · unfold stopsScan
          cases hpl : projectLine l with
          | none => rfl
          | some m => simp [hp m hpl]
      simp only [scanFileLines, hclf, hstop, Bool.false_eq_true, if_false]
      rw [ih hpre']

/-- C1 witness: a concrete file whose foreign project declaration cuts off a
later executable declaration, leaving only the one collected before it. -/
theorem c1_witness :
    projectLine "project(Sub)".data = some "Sub" ∧
    scanFileLines Platform.linux fsNested "Root" (fun _ => Except.error Err.fuel)
        "./sub/CMakeLists.txt"
        [ "add_executable(early e.c)".data, "project(Sub)".data,
          "add_executable(late l.c)".data ] =
      scanFileLines Platform.linux fsNested "Root" (fun _ => Except.error Err.fuel)
        "./sub/CMakeLists.txt" [ "add_executable(early e.c)".data ] := by
  refine ⟨by decide, ?_⟩
  exact c1_scan_stops_at_foreign_project Platform.linux fsNested "Root"
    (fun _ => Except.error Err.fuel) "./sub/CMakeLists.txt"
    [ "add_executable(early e.c)".data ] [ "add_executable(late l.c)".data ]
    "project(Sub)".data "Sub" (by decide) (by decide) (by decide)
    (by
      intro l hl
      right
      intro m hm
      simp only [List.mem_singleton] at hl
      subst hl
      have hx : projectLine "add_executable(early e.c)".data = none := by decide
      rw [hx] at hm
      cases hm)

/-- The sub-project line loop is compositional: scanning a concatenation
threads the dictionary through the first part and continues with the second,
so no line ever cuts the scan short (contrast with the early return of the executable scan). -/
theorem subprojLines_append (mk : String → String → Except Err Project)
    (recurFile : String → Except Err (List (String × Project)))
    (selfName : String) (plat : Platform) (path : String)
    (acc : List (String × Project)) (xs ys : List (List Char)) :
    subprojLines mk recurFile selfName plat path acc (xs ++ ys) =
      match subprojLines mk recurFile selfName plat path acc xs with
      | Except.error e => Except.error e
      | Except.ok acc1 => subprojLines mk recurFile selfName plat path acc1 ys := by
  induction xs generalizing acc with
  | nil => simp [subprojLines]
  | cons l xs ih =>
    simp only [List.cons_append, subprojLines]
    cases subprojStep mk recurFile selfName plat path acc l with
    | error e => rfl
    | ok acc2 => exact ih acc2

/-- C9: sub-project discovery processes every line of the file without
stopping: a foreign project-declaration line assigns a sub-project entry
rooted at the own directory of the scanned file into the dictionary and scanning
continues with all later lines, and a subdirectory-inclusion line (wherever it
occurs, in particular after a foreign declaration) is recursed into, its
dictionary merged in, before scanning continues. -/
theorem c9_subproject_discovery_processes_every_line :
    (∀ (mk : String → String → Except Err Project)
       (recurFile : String → Except Err (List (String × Project)))
       (selfName : String) (plat : Platform) (path : String)
       (acc : List (String × Project)) (pre post : List (List Char))
       (fl : List Char) (nm : String),
      projectLine fl = some nm → nm ≠ selfName → subdirLine fl = none →
      subprojLines mk recurFile selfName plat path acc (pre ++ fl :: post) =
        match subprojLines mk recurFile selfName plat path acc pre with
        | Except.error e => Except.error e
        | Except.ok acc1 =>
          match mk nm (dirname plat path) with
          | Except.error e => Except.error e
          | Except.ok p =>
            subprojLines mk recurFile selfName plat path (dictInsert nm p acc1) post) ∧
    (∀ (mk : String → String → Except Err Project)
       (recurFile : String → Except Err (List (String × Project)))
       (selfName : String) (plat : Platform) (path : String)
       (acc : List (String × Project)) (sl : List Char)
       (rest : List (List Char)) (sub : String),
      projectLine sl = none → subdirLine sl = some sub →
      subprojLines mk recurFile selfName plat path acc (sl :: rest) =
        match recurFile (pjoin plat (pjoin plat (dirname plat path) sub) CMAKE) with
        | Except.error e => Except.error e
        | Except.ok d =>
          subprojLines mk recurFile selfName plat path (dictUpdate acc d) rest) := by
  constructor
  · intro mk recurFile selfName plat path acc pre post fl nm hproj hne hns
    rw [subprojLines_append]
    cases subprojLines mk recurFile selfName plat path acc pre with
    | error e => rfl
    | ok acc1 =>
      simp only [subprojLines, subprojStep, hproj, hne, hns, if_neg hne]
      cases mk nm (dirname plat path) with
      | error e => rfl
      | ok p => rfl
  · intro mk recurFile selfName plat path acc sl rest sub hnp hsub
    simp only [subprojLines, subprojStep, hnp, hsub]
    cases recurFile (pjoin plat (pjoin plat (dirname plat path) sub) CMAKE) with
    | error e => rfl
    | ok d => rfl

/-- C9 witness: on a concrete file region containing its own declaration, a
foreign declaration, and a subdirectory inclusion after the foreign
declaration, both parts of the theorem apply: the foreign declaration inserts
a sub-project built for the directory of the file, and the subdirectory line after
it is still recursed into. -/
theorem c9_witness :
    (subprojLines (fun _ _ => Except.ok pSub) (fun _ => Except.ok []) "Root"
        Platform.linux "./CMakeLists.txt" []
        (["project(Root)".data] ++ "project(Sub)".data ::
          ["add_subdirectory(tools)".data]) =
      match subprojLines (fun _ _ => Except.ok pSub) (fun _ => Except.ok []) "Root"
          Platform.linux "./CMakeLists.txt" [] ["project(Root)".data] with
      | Except.error e => Except.error e
      | Except.ok acc1 =>
        match (fun (_ : String) (_ : String) => Except.ok (ε := Err) pSub) "Sub"
            (dirname Platform.linux "./CMakeLists.txt") with
        | Except.error e => Except.error e
        | Except.ok p =>
          subprojLines (fun _ _ => Except.ok pSub) (fun _ => Except.ok []) "Root"
            Platform.linux "./CMakeLists.txt" (dictInsert "Sub" p acc1)
            ["add_subdirectory(tools)".data]) ∧
    (subprojLines (fun _ _ => Except.ok pSub) (fun _ => Except.ok []) "Root"
        Platform.linux "./CMakeLists.txt" [("Sub", pSub)]
        ["add_subdirectory(tools)".data] =
      match (fun (_ : String) => Except.ok (ε := Err) ([] : List (String × Project)))
          (pjoin Platform.linux (pjoin Platform.linux
            (dirname Platform.linux "./CMakeLists.txt") "tools") CMAKE) with
      | Except.error e => Except.error e
      | Except.ok d =>
        subprojLines (fun _ _ => Except.ok pSub) (fun _ => Except.ok []) "Root"
          Platform.linux "./CMakeLists.txt" (dictUpdate [("Sub", pSub)] d) []) :=
  ⟨c9_subproject_discovery_processes_every_line.1 (fun _ _ => Except.ok pSub)
      (fun _ => Except.ok []) "Root" Platform.linux "./CMakeLists.txt" []
      ["project(Root)".data] ["add_subdirectory(tools)".data]
      "project(Sub)".data "Sub" (by decide) (by decide) (by decide),
   c9_subproject_discovery_processes_every_line.2 (fun _ _ => Except.ok pSub)
      (fun _ => Except.ok []) "Root" Platform.linux "./CMakeLists.txt"
      [("Sub", pSub)] "add_subdirectory(tools)".data [] "tools"
      (by decide) (by decide)⟩

/-- C2: an executable-declaration line whose captured name token is the
same-as-project placeholder contributes the project name re-derived from the
scanned file itself (its first project declaration, via get_project_name),
independently of the owner name of the enclosing scan. -/
theorem c2_placeholder_resolves_to_file_project_name (plat : Platform) (fs : FS)
    (owner : String) (recur : String → Except Err (List String)) (path : String)
    (l : List Char) (rest : List (List Char))
    (hexec : execLine l = some "$\x7bPROJECT_NAME\x7d")
    (hnc : isCommentLine l = false) (hnp : projectLine l = none)
    (hns : subdirLine l = none) :
    scanFileLines plat fs owner recur path (l :: rest) =
      match get_project_name fs path with
      | Except.error e => Except.error e
      | Except.ok nm =>
        match scanFileLines plat fs owner recur path rest with
        | Except.error e => Except.error e
        | Except.ok es => Except.ok (nm :: es) := by
  simp [scanFileLines, stopsScan, hnc, hnp, hns, hexec]

/-- C2 witness: scanning the nested descriptor with the owner name Root, the
placeholder line resolves to Sub, the project name declared in that same file,
which differs from the owner. -/
theorem c2_witness :
    scanFileLines Platform.linux fsNested "Root" (fun _ => Except.error Err.fuel)
        "./sub/CMakeLists.txt" [ "add_executable($\x7bPROJECT_NAME\x7d s.c)".data ] =
      Except.ok ["Sub"] ∧ "Sub" ≠ "Root" := by
  refine ⟨?_, by decide⟩
  rw [c2_placeholder_resolves_to_file_project_name Platform.linux fsNested "Root"
    (fun _ => Except.error Err.fuel) "./sub/CMakeLists.txt"
    "add_executable($\x7bPROJECT_NAME\x7d s.c)".data [] (by decide) (by decide)
    (by decide) (by decide)]
  rfl

/-- C5: a descriptor declaring its own project and exactly two executables A
then B, with comment lines and non-matching lines ignored and no subdirectory
inclusions or foreign project declarations, scans to exactly the sequence
A, B. -/
theorem c5_two_executables_in_order (plat : Platform) (fs : FS) (owner : String)
    (recur : String → Except Err (List String)) (path : String)
    (cl1 cl2 l1 l2 l3 noise : List Char) (A B : String)
    (h1 : projectLine l1 = some owner) (h1c : isCommentLine l1 = false)
    (h1s : subdirLine l1 = none) (h1e : execLine l1 = none)
    (h2 : execLine l2 = some A) (h2c : isCommentLine l2 = false)
    (h2p : projectLine l2 = none) (h2s : subdirLine l2 = none)
    (hA : A ≠ "$\x7bPROJECT_NAME\x7d")
    (h3 : execLine l3 = some B) (h3c : isCommentLine l3 = false)
    (h3p : projectLine l3 = none) (h3s : subdirLine l3 = none)
    (hB : B ≠ "$\x7bPROJECT_NAME\x7d")
    (hc1 : isCommentLine cl1 = true) (hc2 : isCommentLine cl2 = true)
    (hn : isCommentLine noise = false) (hnp : projectLine noise = none)
    (hns : subdirLine noise = none) (hne : execLine noise = none) :
    scanFileLines plat fs owner recur path [cl1, l1, noise, l2, cl2, l3] =
      Except.ok [A, B] := by
  simp [scanFileLines, stopsScan, h1, h1c, h1s, h1e, h2, h2c, h2p, h2s, hA,
    h3, h3c, h3p, h3s, hB, hc1, hc2, hn, hnp, hns, hne]

/-- Lookup after a Python dict assignment: the assigned key maps to the new
value, every other key is unchanged. -/
theorem dictGet_dictInsert {α : Type} (k e : String) (v : α) (d : List (String × α)) :
    dictGet e (dictInsert k v d) = if k = e then some v else dictGet e d := by
  induction d with
  | nil => simp [dictInsert, dictGet]
  | cons kv d ih =>
    obtain ⟨k', v'⟩ := kv
    by_cases hk : k' = k
    · subst hk
      by_cases he : k' = e
      · subst he; simp [dictInsert, dictGet]
      · simp [dictInsert, dictGet, he]
    · by_cases he : k' = e
      · subst he
        have hke : k ≠ k' := fun h => hk h.symm
        simp [dictInsert, dictGet, hk, hke]
      · simp [dictInsert, dictGet, hk, he, ih]

/-- Lookup after a Python dict update: the last binding of the applied entry
list wins, and keys it does not mention fall back to the original dict. -/
theorem dictGet_dictUpdate {α : Type} (acc d' : List (String × α)) (e : String) :
    dictGet e (dictUpdate acc d') =
      match dictGet e d'.reverse with
      | some v => some v
      | none => dictGet e acc := by
  induction d' using List.reverseRecOn with
  | nil => simp [dictUpdate, dictGet]
  | append_singleton ds kv ih =>
    obtain ⟨k, v⟩ := kv
    simp only [dictUpdate, List.foldl_append, List.foldl_cons, List.foldl_nil,
      List.reverse_append, List.reverse_cons, List.reverse_nil, List.nil_append,
      List.cons_append] at *
    rw [dictGet_dictInsert]
    by_cases hk : k = e
    · subst hk; simp [dictGet]
    · simp only [dictGet, if_neg hk]
      exact ih

/-- Lookup in the executable-path dict comprehension built over an
accumulator: a name in the list maps into the given directory, anything else
falls back to the accumulator. -/
theorem dictGet_execPathDict_foldl (plat : Platform) (dir : String) (e : String) :
    ∀ (execs : List String) (acc : List (String × String)),
      dictGet e (execs.foldl (fun a x => dictInsert x (pjoin plat dir x) a) acc) =
        if e ∈ execs then some (pjoin plat dir e) else dictGet e acc := by
  intro execs
  induction execs with
  | nil => intro acc; simp
  | cons x xs ih =>
    intro acc
    simp only [List.foldl_cons]
    rw [ih, dictGet_dictInsert]
    by_cases h1 : e ∈ xs
    · simp [h1]
    · by_cases h2 : x = e
      · subst h2; simp [h1]
      · have h3 : e ≠ x := fun h => h2 h.symm
        simp [h1, h2, h3]

/-- Membership after a dict assignment comes from the new binding or the old
dict. -/
theorem mem_dictInsert {α : Type} (kv : String × α) (k : String) (v : α) :
    ∀ d : List (String × α), kv ∈ dictInsert k v d → kv = (k, v) ∨ kv ∈ d := by
  intro d
  induction d with
  | nil => intro h; simp [dictInsert] at h; simp [h]
  | cons kv' d ih =>
    obtain ⟨k', v'⟩ := kv'
    intro h
    by_cases hk : k' = k
    · subst hk
      simp only [dictInsert, if_pos rfl, List.mem_cons, ite_true, eq_self_iff_true] at h
      rcases h with h | h
      · exact Or.inl h
      · exact Or.inr (List.mem_cons_of_mem _ h)
    · simp only [dictInsert, if_neg hk, List.mem_cons] at h
      rcases h with h | h
      · exact Or.inr (by simp [h])
      · rcases ih h with h' | h'
        · exact Or.inl h'
        · exact Or.inr (List.mem_cons_of_mem _ h')

/-- Every binding of the executable-path dict comprehension maps its key into
the given directory. -/
theorem execPathDict_vals (plat : Platform) (dir : String) :
    ∀ (execs : List String) (acc : List (String × String)),
      (∀ kv ∈ acc, kv.2 = pjoin plat dir kv.1) →
      ∀ kv ∈ execs.foldl (fun a x => dictInsert x (pjoin plat dir x) a) acc,
        kv.2 = pjoin plat dir kv.1 := by
  intro execs
  induction execs with
  | nil => intro acc hacc kv hkv; exact hacc kv hkv
  | cons x xs ih =>
    intro acc hacc kv hkv
    simp only [List.foldl_cons] at hkv
    refine ih (dictInsert x (pjoin plat dir x) acc) ?_ kv hkv
    intro kv' hkv'
    rcases mem_dictInsert kv' x (pjoin plat dir x) acc hkv' with h | h
    · simp [h]
    · exact hacc kv' h

/-- A dict whose values are a function of their keys looks any present key up
to the value of that function at the key. -/
theorem dictGet_of_val_of_key {α : Type} (f : String → α) (e : String) :
    ∀ (d : List (String × α)), (∀ kv ∈ d, kv.2 = f kv.1) →
      ∀ v, dictGet e d = some v → dictGet e d = some (f e) := by
  intro d
  induction d with
  | nil => intro _ v h; simp [dictGet] at h
  | cons kv d ih =>
    obtain ⟨k, w⟩ := kv
    intro hvals v h
    by_cases hk : k = e
    · subst hk
      have hw : w = f k := hvals (k, w) (by simp)
      simp [dictGet, hw]
    · simp only [dictGet, if_neg hk] at h ⊢
      exact ih (fun kv' hkv' => hvals kv' (List.mem_cons_of_mem _ hkv')) v h

/-- A successful lookup in the reverse dict also succeeds in the dict. -/
theorem dictGet_reverse_isSome {α : Type} (e : String) (d : List (String × α))
    (v : α) (h : dictGet e d = some v) : ∃ w, dictGet e d.reverse = some w := by
  induction d with
  | nil => simp [dictGet] at h
  | cons kv d ih =>
    obtain ⟨k, w⟩ := kv
    by_cases hk : k = e
    · subst hk
      cases hrev : dictGet k (d.reverse ++ [(k, w)]) with
      | some u => exact ⟨u, by simpa using hrev⟩
      | none =>
        exfalso
        have : dictGet k (d.reverse ++ [(k, w)]) ≠ none := by
          clear hrev ih h
          induction d.reverse with
          | nil => simp [dictGet]
          | cons kv' t iht =>
            obtain ⟨k', w'⟩ := kv'
            by_cases hk' : k' = k
            · subst hk'; simp [dictGet]
            · simp only [List.cons_append, dictGet, if_neg hk']
              exact iht
        exact this hrev
    · simp only [dictGet, if_neg hk] at h
      obtain ⟨w', hw'⟩ := ih h
      refine ⟨w', ?_⟩
      simp only [List.reverse_cons]
      clear ih h
      revert hw'
      generalize d.reverse = r
      intro hw'
      induction r with
      | nil => simp [dictGet] at hw'
      | cons kv' t iht =>
        obtain ⟨k', w''⟩ := kv'
        by_cases hk' : k' = e
        · subst hk'
          simp only [dictGet, if_pos rfl] at hw' ⊢
          simpa using hw'
        · simp only [List.cons_append, dictGet, if_neg hk'] at hw' ⊢
          exact iht hw'

/-- C10: when the root and one sub-project each declare an executable with the
same name, the flattened path dict assigns that name to the output directory of the
sub-project (the entry of the sub-project overwrites the entry of the root), while the
flattened executable list contains the name twice. -/
theorem c10_colliding_name_maps_to_subproject_dir (plat : Platform)
    (ownDir : String) (ownExecs : List String) (e : String) (s : Project)
    (h1 : e ∈ ownExecs) (h2 : e ∈ s.executables)
    (hc1 : ownExecs.count e = 1) (hc2 : s.executables.count e = 1) :
    dictGet e (flatten_exec_paths plat ownDir ownExecs [s]) =
      some (pjoin plat s.executables_dir e) ∧
    (flatten_execs ownExecs [s]).count e = 2 := by
  constructor
  · have hflat : flatten_exec_paths plat ownDir ownExecs [s] =
        dictUpdate (execPathDict plat ownDir ownExecs)
          (execPathDict plat s.executables_dir s.executables) := rfl
    rw [hflat, dictGet_dictUpdate]
    have hsome : dictGet e (execPathDict plat s.executables_dir s.executables) =
        some (pjoin plat s.executables_dir e) := by
      unfold execPathDict
      rw [dictGet_execPathDict_foldl]
      simp [h2]
    obtain ⟨w, hw⟩ := dictGet_reverse_isSome e _ _ hsome
    have hvals : ∀ kv ∈ (execPathDict plat s.executables_dir s.executables).reverse,
        kv.2 = pjoin plat s.executables_dir kv.1 := by
      intro kv hkv
      exact execPathDict_vals plat s.executables_dir s.executables [] (by simp) kv
        (List.mem_reverse.mp hkv)
    have := dictGet_of_val_of_key (pjoin plat s.executables_dir) e _ hvals w hw
    rw [this]
  · have hfe : flatten_execs ownExecs [s] = ownExecs ++ s.executables := rfl
    rw [hfe, List.count_append, hc1, hc2]

/-- C3 counterexample: with change detection enabled and the persisted digest
field absent, the code persists the new digest but does not mark the run
modified, refuting the claim that absence of the field marks the run
modified. -/
theorem c3_counterexample :
    (detect_changes false none "h1").1 = false ∧
    (detect_changes false none "h1").2.1 = some "h1" := ⟨rfl, rfl⟩

/-- C3 amended: with change detection enabled, a persisted digest differing
from the current one marks the run modified and persists the new digest; an
equal persisted digest leaves the persisted value untouched; an absent digest
field persists the new digest but does not mark the run modified. -/
theorem c3_amended_absence_persists_unmodified (h cur : String) :
    (h ≠ cur →
      detect_changes false (some h) cur = (true, some cur, [Event.writeConf cur])) ∧
    detect_changes false (some cur) cur = (false, some cur, []) ∧
    detect_changes false none cur = (false, some cur, [Event.writeConf cur]) := by
  refine ⟨?_, ?_, rfl⟩
  · intro hne
    simp [detect_changes, hne]
  · simp [detect_changes]

/-- C3 witness: the amended behaviour at concrete digests. -/
theorem c3_witness :
    detect_changes false (some "old") "new" =
      (true, some "new", [Event.writeConf "new"]) ∧
    detect_changes false (some "new") "new" = (false, some "new", []) ∧
    detect_changes false none "new" = (false, some "new", [Event.writeConf "new"]) :=
  ⟨(c3_amended_absence_persists_unmodified "old" "new").1 (by decide),
   (c3_amended_absence_persists_unmodified "new" "new").2.1,
   (c3_amended_absence_persists_unmodified "new" "new").2.2⟩

/-- C4 counterexample: a descriptor whose declared project name Root is not
among its declared executables; with no requested executable, the constructor
terminates with an uncaught KeyError on the run-path lookup, not with the
distinct configuration-error exit. -/
theorem c4_counterexample :
    mkProject Platform.linux fsNameless 3 none none "." none =
      Except.error (Err.keyError "Root") ∧
    mkProject Platform.linux fsNameless 3 none none "." none ≠
      Except.error (Err.exitCode 1) := by
  constructor
  · rfl
  · intro h
    rw [show mkProject Platform.linux fsNameless 3 none none "." none =
        Except.error (Err.keyError "Root") from rfl] at h
    simp at h

/-- C4 amended: when no executable is explicitly requested the selection
defaults to the declared project name with no membership check; if that name
is absent from the flattened path mapping the subsequent constructor lookup
raises an uncaught KeyError rather than the configuration-error exit; only an
explicitly requested executable absent from the flattened list receives the
distinct configuration-error exit. -/
theorem c4_amended_default_miss_is_keyerror (name : String) (execs : List String)
    (paths : List (String × String)) (e : String) :
    select_executable none name execs = Except.ok name ∧
    (dictGet name paths = none →
      resolve_executable none name execs paths = Except.error (Err.keyError name)) ∧
    (e ≠ "default" → e ∉ execs →
      resolve_executable (some e) name execs paths = Except.error (Err.exitCode 1)) := by
  refine ⟨rfl, ?_, ?_⟩
  · intro h
    simp [resolve_executable, select_executable, h]
  · intro h1 h2
    simp [resolve_executable, select_executable, h1, h2]

/-- C4 witness: the amended behaviour at a concrete project whose name Root is
not a declared executable. -/
theorem c4_witness :
    select_executable none "Root" ["app"] = Except.ok "Root" ∧
    resolve_executable none "Root" ["app"] [("app", "./build/linux/app")] =
      Except.error (Err.keyError "Root") ∧
    resolve_executable (some "nope") "Root" ["app"] [("app", "./build/linux/app")] =
      Except.error (Err.exitCode 1) :=
  ⟨(c4_amended_default_miss_is_keyerror "Root" ["app"]
      [("app", "./build/linux/app")] "nope").1,
   (c4_amended_default_miss_is_keyerror "Root" ["app"]
      [("app", "./build/linux/app")] "nope").2.1 (by decide),
   (c4_amended_default_miss_is_keyerror "Root" ["app"]
      [("app", "./build/linux/app")] "nope").2.2 (by decide) (by decide)⟩

/-- C10 witness: root executables containing app once and a sub-project also
declaring app once; the flattened dict sends app into the output directory of the
sub-project and the flattened list holds app twice. -/
theorem c10_witness :
    dictGet "app" (flatten_exec_paths Platform.linux "./build/linux/" ["app"] [pSubApp]) =
      some (pjoin Platform.linux pSubApp.executables_dir "app") ∧
    (flatten_execs ["app"] [pSubApp]).count "app" = 2 :=
  c10_colliding_name_maps_to_subproject_dir Platform.linux "./build/linux/"
    ["app"] "app" pSubApp (by decide) (by decide) (by decide) (by decide)

/-- The double-quote substitution distributes over concatenation. -/
theorem sub_dquote_append (a b : List Char) :
    sub_dquote (a ++ b) = sub_dquote a ++ sub_dquote b := by
  induction a with
  | nil => rfl
  | cons c a ih =>
    by_cases hc : c = DQ
    · simp [sub_dquote, hc, ih]
    · simp [sub_dquote, hc, ih]

/-- The single-quote substitution distributes over concatenation. -/
theorem sub_squote_append (a b : List Char) :
    sub_squote (a ++ b) = sub_squote a ++ sub_squote b := by
  induction a with
  | nil => rfl
  | cons c a ih =>
    by_cases hc : c = SQ
    · simp [sub_squote, hc, ih]
    · simp [sub_squote, hc, ih]

/-- Quote escaping distributes over concatenation. -/
theorem escape_quotes_append (a b : List Char) :
    escape_quotes (a ++ b) = escape_quotes a ++ escape_quotes b := by
  simp [escape_quotes, sub_dquote_append, sub_squote_append]

/-- Quote escaping leaves a leading space in place. -/
theorem escape_quotes_space_cons (b : List Char) :
    escape_quotes (' ' :: b) = ' ' :: escape_quotes b := by
  have h1 : ¬ (' ' = DQ) := by decide
  have h2 : ¬ (' ' = SQ) := by decide
  simp [escape_quotes, sub_dquote, sub_squote, h1, h2]

/-- Quote escaping commutes with joining arguments on spaces. -/
theorem escape_quotes_joinSpace (args : List (List Char)) :
    escape_quotes (joinSpace args) = joinSpace (args.map escape_quotes) := by
  induction args with
  | nil => rfl
  | cons a args ih =>
    cases args with
    | nil => rfl
    | cons b args' =>
      show escape_quotes (a ++ ' ' :: joinSpace (b :: args')) = _
      rw [escape_quotes_append, escape_quotes_space_cons, ih]
      rfl

/-- A character in the output of the double-quote substitution comes from the input
or is the inserted backslash. -/
theorem mem_sub_dquote (c : Char) :
    ∀ l : List Char, c ∈ sub_dquote l → c ∈ l ∨ c = '\\' := by
  intro l
  induction l with
  | nil => intro h; simp [sub_dquote] at h
  | cons d l ih =>
    intro h
    by_cases hd : d = DQ
    · subst hd
      simp only [sub_dquote, if_pos rfl, List.mem_cons, ite_true, eq_self_iff_true] at h
      rcases h with h | h | h
      · exact Or.inr h
      · exact Or.inl (by simp [h])
      · rcases ih h with h' | h'
        · exact Or.inl (List.mem_cons_of_mem _ h')
        · exact Or.inr h'
    · simp only [sub_dquote, if_neg hd, List.mem_cons] at h
      rcases h with h | h
      · exact Or.inl (by simp [h])
      · rcases ih h with h' | h'
        · exact Or.inl (List.mem_cons_of_mem _ h')
        · exact Or.inr h'

/-- A character in the output of the single-quote substitution comes from the input
or is the inserted backslash. -/
theorem mem_sub_squote (c : Char) :
    ∀ l : List Char, c ∈ sub_squote l → c ∈ l ∨ c = '\\' := by
  intro l
  induction l with
  | nil => intro h; simp [sub_squote] at h
  | cons d l ih =>
    intro h
    by_cases hd : d = SQ
    · subst hd
      simp only [sub_squote, if_pos rfl, List.mem_cons, ite_true, eq_self_iff_true] at h
      rcases h with h | h | h
      · exact Or.inr h
      · exact Or.inl (by simp [h])
      · rcases ih h with h' | h'
        · exact Or.inl (List.mem_cons_of_mem _ h')
        · exact Or.inr h'
    · simp only [sub_squote, if_neg hd, List.mem_cons] at h
      rcases h with h | h
      · exact Or.inl (by simp [h])
      · rcases ih h with h' | h'
        · exact Or.inl (List.mem_cons_of_mem _ h')
        · exact Or.inr h'

/-- Escaping a space-free argument yields a space-free result. -/
theorem space_not_mem_escape_quotes (a : List Char) (h : ' ' ∉ a) :
    ' ' ∉ escape_quotes a := by
  intro hm
  rcases mem_sub_squote ' ' _ hm with h1 | h1
  · rcases mem_sub_dquote ' ' _ h1 with h2 | h2
    · exact h h2
    · exact absurd h2 (by decide)
  · exact absurd h1 (by decide)

/-- Splitting a space-free string on spaces yields the single piece. -/
theorem splitSpace_of_no_space : ∀ a : List Char, ' ' ∉ a → splitSpace a = [a] := by
  intro a
  induction a with
  | nil => intro _; rfl
  | cons c a ih =>
    intro h
    have hc : ¬ (c = ' ') := fun hch => h (by simp [hch])
    have ha : ' ' ∉ a := fun hm => h (List.mem_cons_of_mem _ hm)
    have hrec := ih ha
    simp only [splitSpace] at hrec
    simp only [splitSpace, splitOnPred, hc, decide_False, Bool.false_eq_true, if_false, hrec]

/-- Splitting a space-free piece, a space, and a remainder recovers the piece
followed by the split remainder. -/
theorem splitSpace_append_space : ∀ (a t : List Char), ' ' ∉ a →
    splitSpace (a ++ ' ' :: t) = a :: splitSpace t := by
  intro a
  induction a with
  | nil => intro t _; simp [splitSpace, splitOnPred]
  | cons c a ih =>
    intro t h
    have hc : ¬ (c = ' ') := fun hch => h (by simp [hch])
    have ha : ' ' ∉ a := fun hm => h (List.mem_cons_of_mem _ hm)
    have hrec := ih t ha
    simp only [splitSpace] at hrec
    simp only [List.cons_append, splitSpace, splitOnPred, hc, decide_False,
      Bool.false_eq_true, if_false, List.append_eq, hrec]

/-- Splitting the space-join of space-free pieces recovers the pieces. -/
theorem splitSpace_joinSpace : ∀ l : List (List Char), l ≠ [] →
    (∀ x ∈ l, ' ' ∉ x) → splitSpace (joinSpace l) = l := by
  intro l
  induction l with
  | nil => intro h _; exact absurd rfl h
  | cons a l ih =>
    intro _ hsp
    cases l with
    | nil =>
      show splitSpace (joinSpace [a]) = [a]
      exact splitSpace_of_no_space a (hsp a (by simp))
    | cons b l' =>
      show splitSpace (a ++ ' ' :: joinSpace (b :: l')) = a :: b :: l'
      rw [splitSpace_append_space a _ (hsp a (by simp))]
      rw [ih (by simp) (fun x hx => hsp x (List.mem_cons_of_mem _ hx))]

/-- Escaping preserves whether an argument contains a quote character. -/
theorem hasQuoteChar_escape_quotes (a : List Char) :
    hasQuoteChar (escape_quotes a) = hasQuoteChar a := by
  induction a with
  | nil => rfl
  | cons c a ih =>
    by_cases hdq : c = DQ
    · subst hdq
      have h1 : ¬ ('\\' = SQ) := by decide
      have h2 : ¬ (DQ = SQ) := by decide
      simp [escape_quotes, sub_dquote, sub_squote, h1, h2, hasQuoteChar] at *
    · by_cases hsq : c = SQ
      · subst hsq
        have h1 : ¬ (SQ = DQ) := by decide
        have h2 : ¬ ('\\' = SQ) := by decide
        simp [escape_quotes, sub_dquote, sub_squote, h1, h2, hasQuoteChar] at *
      · simp only [escape_quotes, sub_dquote, if_neg hdq, sub_squote, if_neg hsq,
          hasQuoteChar, List.any_cons] at *
        rw [ih]

/-- An argument with no quote characters escapes to itself. -/
theorem escape_quotes_of_no_quote (a : List Char) (h : hasQuoteChar a = false) :
    escape_quotes a = a := by
  induction a with
  | nil => rfl
  | cons c a ih =>
    simp only [hasQuoteChar, List.any_cons, Bool.or_eq_false_iff] at h
    obtain ⟨⟨h1, h2⟩, ha⟩ := h
    have h1' : ¬ (c = DQ) := by simpa using h1
    have h2' : ¬ (c = SQ) := by simpa using h2
    simp only [escape_quotes, sub_dquote, if_neg h1', sub_squote, if_neg h2']
    have := ih (by simpa [hasQuoteChar] using ha)
    simp only [escape_quotes] at this
    rw [this]

/-- C6: requesting a run of an executable name absent from the flattened
executable list hits the configuration-error quit of the constructor: the selection
fails with exit code 1 for any non-default absent name, and a run whose
project constructor terminates with the configuration-error exit yields exit
code 1 from main with an empty effect trace — in particular no build-tool
invocation was performed. -/
theorem c6_unknown_requested_executable_fails_before_build :
    (∀ (e name : String) (execs : List String), e ≠ "default" → e ∉ execs →
      select_executable (some e) name execs = Except.error (Err.exitCode 1)) ∧
    (∀ (plat : Platform) (fs : FS) (fuel : Nat) (args : Args)
       (conf : Option (Option String)) (cur : String) (ce bde : Bool)
       (brc rrc : Nat) (ls : List (List Char)),
      fsRead fs (pjoin plat args.path CMAKE) = some ls →
      mkProject plat fs fuel none args.executable args.path none =
        Except.error (Err.exitCode 1) →
      mainModel plat fs fuel args conf cur true ce bde brc rrc = Except.ok (1, [])) := by
  constructor
  · intro e name execs h1 h2
    simp [select_executable, h1, h2]
  · intro plat fs fuel args conf cur ce bde brc rrc ls hread hmk
    simp [mainModel, hread, hmk]

/-- C6 witness: requesting the undeclared executable nope on a concrete
descriptor declaring the single executable App exits with the
configuration-error code and an empty trace. -/
theorem c6_witness :
    select_executable (some "nope") "App" ["App"] = Except.error (Err.exitCode 1) ∧
    mainModel Platform.linux fsApp 3 argsUnknownRun (some (some "h")) "h" true true true
        0 0 = Except.ok (1, []) :=
  ⟨c6_unknown_requested_executable_fails_before_build.1 "nope" "App" ["App"]
      (by decide) (by decide),
   c6_unknown_requested_executable_fails_before_build.2 Platform.linux fsApp 3
      argsUnknownRun (some (some "h")) "h" true true 0 0
      ["project(App)".data, "add_executable(App main.c)".data] rfl rfl⟩

/-- When the cache marker survives (it exists and no delete removes the build
directory) and change detection did not mark the run modified, no configure
event can appear in the trace of the run. -/
theorem mainModel_no_configure (plat : Platform) (fs : FS) (fuel : Nat) (args : Args)
    (conf : Option (Option String)) (cur : String) (ci ce bde : Bool)
    (brc rrc c : Nat) (tr : List Event) (bd : String)
    (hce : (ce && !(bde && args.delete)) = true)
    (hmod : (detect_changes args.ignore (ensure_build_conf conf cur).1 cur).1 = false)
    (h : mainModel plat fs fuel args conf cur ci ce bde brc rrc = Except.ok (c, tr)) :
    Event.configure bd ∉ tr := by
  have hens : Event.configure bd ∉ (ensure_build_conf conf cur).2 := by
    cases conf <;> simp [ensure_build_conf]
  have hdet : Event.configure bd ∉
      (detect_changes args.ignore (ensure_build_conf conf cur).1 cur).2.2 := by
    unfold detect_changes
    split
    · simp
    · cases (ensure_build_conf conf cur).1 with
      | some hh =>
        by_cases hne : hh ≠ cur
        · simp [hne]
        · simp [hne]
      | none => simp
  intro hmem
  simp only [mainModel] at h
  rw [hce, hmod] at h
  simp only [Bool.not_true, Bool.false_or, Bool.false_eq_true, if_false] at h
  repeat' split at h
  all_goals
    first
    | exact Except.noConfusion h
    | (injection h with hh
       injection hh with ha hb
       subst hb
       simp [hens, hdet] at hmem)

/-- C7: a configure event appears in the trace of a run only when the cache marker
file is absent at check time (missing, or removed by the delete flag together
with an existing build directory) or the descriptor was marked modified; in
particular a second run with a matching persisted digest, an existing cache
marker and no delete flag never re-triggers the configure step. -/
theorem c7_configure_only_without_cache_or_modified :
    (∀ (plat : Platform) (fs : FS) (fuel : Nat) (args : Args)
       (conf : Option (Option String)) (cur : String) (ci ce bde : Bool)
       (brc rrc c : Nat) (tr : List Event) (bd : String),
      mainModel plat fs fuel args conf cur ci ce bde brc rrc = Except.ok (c, tr) →
      Event.configure bd ∈ tr →
      (ce && !(bde && args.delete)) = false ∨
        (detect_changes args.ignore (ensure_build_conf conf cur).1 cur).1 = true) ∧
    (∀ (plat : Platform) (fs : FS) (fuel : Nat) (args : Args)
       (conf : Option (Option String)) (cur : String) (ci bde : Bool)
       (brc rrc c : Nat) (tr : List Event) (bd : String),
      args.delete = false → conf = some (some cur) →
      mainModel plat fs fuel args conf cur ci true bde brc rrc = Except.ok (c, tr) →
      Event.configure bd ∉ tr) := by
  have part1 : ∀ (plat : Platform) (fs : FS) (fuel : Nat) (args : Args)
      (conf : Option (Option String)) (cur : String) (ci ce bde : Bool)
      (brc rrc c : Nat) (tr : List Event) (bd : String),
      mainModel plat fs fuel args conf cur ci ce bde brc rrc = Except.ok (c, tr) →
      Event.configure bd ∈ tr →
      (ce && !(bde && args.delete)) = false ∨
        (detect_changes args.ignore (ensure_build_conf conf cur).1 cur).1 = true := by
    intro plat fs fuel args conf cur ci ce bde brc rrc c tr bd h hmem
    by_cases hA : (ce && !(bde && args.delete)) = true
    · by_cases hB : (detect_changes args.ignore (ensure_build_conf conf cur).1 cur).1 = true
      · exact Or.inr hB
      · have hBf : (detect_changes args.ignore (ensure_build_conf conf cur).1 cur).1 = false := by
          cases hb : (detect_changes args.ignore (ensure_build_conf conf cur).1 cur).1 with
          | false => rfl
          | true => exact absurd hb hB
        exact absurd hmem (mainModel_no_configure plat fs fuel args conf cur ci ce bde
          brc rrc c tr bd hA hBf h)
    · refine Or.inl ?_
      cases hb : (ce && !(bde && args.delete)) with
      | false => rfl
      | true => exact absurd hb hA
  refine ⟨part1, ?_⟩
  intro plat fs fuel args conf cur ci bde brc rrc c tr bd hdel hconf h hmem
  rcases part1 plat fs fuel args conf cur ci true bde brc rrc c tr bd h hmem with h1 | h2
  · rw [hdel] at h1
    simp at h1
  · subst hconf
    cases hi : args.ignore with
    | true => simp [ensure_build_conf, detect_changes, hi] at h2
    | false => simp [ensure_build_conf, detect_changes, hi] at h2

/-- C7 witness: a second run over an unchanged descriptor with a matching
persisted digest and an existing cache marker performs only the build step,
and the theorem rules a configure event out of that trace. -/
theorem c7_witness :
    mainModel Platform.linux fsApp 3 argsPlain (some (some "h")) "h" true true false
        0 0 = Except.ok (0, [Event.build "./build/linux/"]) ∧
    Event.configure "./build/linux/" ∉ [Event.build "./build/linux/"] :=
  ⟨rfl,
   c7_configure_only_without_cache_or_modified.2 Platform.linux fsApp 3 argsPlain
     (some (some "h")) "h" true false 0 0 0 [Event.build "./build/linux/"]
     "./build/linux/" rfl rfl rfl⟩

/-- C8 counterexample: an argument containing a space and a quote is not
mapped to a single wrapped token: the code splits it at the space, leaves the
first half bare, and wraps only the second half, differing from the claimed
per-argument quoting. -/
theorem c8_counterexample :
    get_quoted_string [['x', ' ', SQ, 'y']] ≠ per_argument_quoted [['x', ' ', SQ, 'y']] ∧
    get_quoted_string [['x', ' ', SQ, 'y']] = ['x', ' ', DQ, '\\', SQ, 'y', DQ] ∧
    per_argument_quoted [['x', ' ', SQ, 'y']] = [DQ, 'x', ' ', '\\', SQ, 'y', DQ] :=
  ⟨by decide, by decide, by decide⟩

/-- C8 amended: the pass-through arguments are joined on spaces and re-split,
so quoting applies to the resulting space-delimited tokens; when no argument
contains a space this coincides with the claimed behaviour: each argument maps
to one token, quote-containing arguments are escaped and wrapped in double
quotes, and all others pass through unchanged. -/
theorem c8_amended_per_token_when_no_spaces (args : List (List Char))
    (h : ∀ a ∈ args, ' ' ∉ a) :
    get_quoted_string args = per_argument_quoted args := by
  cases args with
  | nil => rfl
  | cons a args' =>
    simp only [get_quoted_string, per_argument_quoted]
    rw [escape_quotes_joinSpace]
    rw [splitSpace_joinSpace ((a :: args').map escape_quotes) (by simp)
      (by
        intro x hx
        obtain ⟨y, hy, rfl⟩ := List.mem_map.mp hx
        exact space_not_mem_escape_quotes y (h y hy))]
    rw [List.map_map]
    congr 1
    apply List.map_congr_left
    intro y hy
    simp only [Function.comp]
    rw [hasQuoteChar_escape_quotes]
    by_cases hq : hasQuoteChar y = true
    · simp [hq]
    · have hq' : hasQuoteChar y = false := by
        cases hb : hasQuoteChar y with
        | false => rfl
        | true => exact absurd hb hq
      simp [hq', escape_quotes_of_no_quote y hq']

/-- C8 witness: on space-free arguments, one containing a double quote, the
output of the code equals the per-argument description. -/
theorem c8_witness :
    get_quoted_string [['a'], [DQ, 'b']] = per_argument_quoted [['a'], [DQ, 'b']] :=
  c8_amended_per_token_when_no_spaces [['a'], [DQ, 'b']] (by decide)

/-- C5 witness: a concrete descriptor with a comment, its own project
declaration, a blank-ish line, and two executable declarations scans to
exactly those two names in order. -/
theorem c5_witness :
    scanFileLines Platform.linux fsApp "App" (fun _ => Except.error Err.fuel)
        "./CMakeLists.txt"
        [ "# comment".data, "project(App)".data, "set(CMAKE_CXX_STANDARD 17)".data,
          "add_executable(alpha a.c)".data, "# another comment".data,
          "add_executable(beta b.c)".data ] =
      Except.ok ["alpha", "beta"] :=
  c5_two_executables_in_order Platform.linux fsApp "App"
    (fun _ => Except.error Err.fuel) "./CMakeLists.txt"
    "# comment".data "# another comment".data "project(App)".data
    "add_executable(alpha a.c)".data "add_executable(beta b.c)".data
    "set(CMAKE_CXX_STANDARD 17)".data "alpha" "beta"
    (by decide) (by decide) (by decide) (by decide)
    (by decide) (by decide) (by decide) (by decide) (by decide)
    (by decide) (by decide) (by decide) (by decide) (by decide)
    (by decide) (by decide)
    (by decide) (by decide) (by decide) (by decide)

end Cbuild
